import Mathlib

/-!
Shallow embedding of the rate-limiter subsystem of `moya-pythonlib-util`
(`src/moya/util/ratelimit.py`, `src/moya/util/fastapi_ratelimit.py`,
`src/moya/service/redis.py`).

Timestamps (Python `time.time()` floats) are modelled as rationals `ℚ`.
Python exceptions are modelled by the inductive `PyErr`; a stateful method
returns `Option PyErr × State` (the error raised, if any, together with the
state of the process after the call, since Python mutates state in place
even when an exception is raised later in the method body).
-/

/-- Python exception classes that appear in the rate-limiter code paths. -/
inductive PyErr where
  | rateLimitExceeded
  | keyError
  | valueError
  | indexError
  | connectionError
  | timeoutError
  | redisError
deriving DecidableEq

deriving instance DecidableEq for Except

/-- `RateLimit` pydantic model (ratelimit.py lines 15-43): four optional
integer fields. -/
structure RateLimit where
  per_second : Option Int := none
  per_minute : Option Int := none
  per_hour : Option Int := none
  per_day : Option Int := none
deriving DecidableEq

/-- `RateLimit.rates` (ratelimit.py lines 24-35): the `(limit, duration)`
pairs for every field that is set, built from the fixed ordered tuple
`((per_second,1), (per_minute,60), (per_hour,3600), (per_day,86400))`. -/
def RateLimit.rates (r : RateLimit) : List (Int × Int) :=
  [(r.per_second, (1 : Int)), (r.per_minute, 60), (r.per_hour, 60 * 60),
    (r.per_day, 24 * 60 * 60)].filterMap fun ld => ld.1.map fun l => (l, ld.2)

/-- `RateLimit.max_duration` (ratelimit.py lines 37-39) is
`self.rates[-1][1]`; on an empty `rates` the Python raises `IndexError`,
modelled by `none`. -/
def RateLimit.max_duration? (r : RateLimit) : Option Int :=
  r.rates.getLast?.map Prod.snd

/-- `RateLimit.is_empty` (ratelimit.py lines 41-43). -/
def RateLimit.is_empty (r : RateLimit) : Bool :=
  r.per_second.isNone && r.per_minute.isNone && r.per_hour.isNone &&
    r.per_day.isNone

/-- `LimitBase.key` (ratelimit.py lines 65-69): `":".join([base_key, user_id])`. -/
def LimitBase.key (base_key user_id : String) : String :=
  String.intercalate ":" [base_key, user_id]

/-- The length validation in `LimitBase.__init__` (ratelimit.py lines 59-63):
raises `ValueError` when `len(self.key("")) < 4`. -/
def LimitBase.init (base_key : String) : Except PyErr Unit :=
  if (LimitBase.key base_key "").length < 4 then .error .valueError
  else .ok ()

/-! ### In-memory backend (`MemLimiter`, ratelimit.py lines 93-124)

The `_limits` dict is modelled as a function `String → Option (List ℚ)`;
`none` means the key is absent from the dict. -/

abbrev MemSt := String → Option (List ℚ)

def memEmpty : MemSt := fun _ => none

/-- Functional update of a dict-as-function state. -/
def updMem (st : MemSt) (k : String) (v : Option (List ℚ)) : MemSt :=
  fun k' => if k' = k then v else st k'

/-- `sum(1 for t in cur_limits if t > now - duration)`
(ratelimit.py line 109): events strictly above the cutoff. -/
def countWindow (events : List ℚ) (cutoff : ℚ) : Nat :=
  events.countP fun t => decide (cutoff < t)

/-- The first `(limit, duration)` pair, in the order of `rates` (ascending
duration), whose window count meets or exceeds its limit; the `for` loop in
`MemLimiter.try_ratelimit` raises on exactly the first such pair. -/
def firstViolation (rates : List (Int × Int)) (events : List ℚ) (now : ℚ) :
    Option (Int × Int) :=
  rates.find? fun ld => decide (ld.1 ≤ (countWindow events (now - ld.2) : Int))

/-- `MemLimiter.try_ratelimit` (ratelimit.py lines 104-112).
`setdefault` inserts an empty list for a missing key before the window
checks, so the key exists afterwards even when the call is rejected. -/
def MemLimiter.try_ratelimit (r : RateLimit) (base : String) (st : MemSt)
    (user : String) (now : ℚ) : Option PyErr × MemSt :=
  let k := LimitBase.key base user
  let cur := (st k).getD []
  let st1 := updMem st k (some cur)
  match firstViolation r.rates cur now with
  | some _ => (some .rateLimitExceeded, st1)
  | none => (none, updMem st1 k (some (cur ++ [now])))

/-- `MemLimiter.flush_user` (ratelimit.py lines 114-115):
`del self._limits[self.key(user_id)]` — `KeyError` when the key is absent. -/
def MemLimiter.flush_user (base : String) (st : MemSt) (user : String) :
    Option PyErr × MemSt :=
  let k := LimitBase.key base user
  match st k with
  | some _ => (none, updMem st k none)
  | none => (some .keyError, st)

/-- `MemLimiter.reset` (ratelimit.py lines 117-124): `self._limits = {}`. -/
def MemLimiter.reset (_st : MemSt) : Option PyErr × MemSt :=
  (none, memEmpty)

/-! ### `redis_try_run` (redis.py lines 151-178)

Runs a store interaction, catching `ConnectionError`, `TimeoutError` and
`RedisError` (logging them and returning `None`); every other exception
propagates.  The interaction itself is modelled by its outcome, an
`Except PyErr α`. -/

/-- The exception classes caught by `redis_try_run`. -/
def isRedisErr : PyErr → Bool
  | .connectionError => true
  | .timeoutError => true
  | .redisError => true
  | _ => false

def redis_try_run (res : Except PyErr α) : Except PyErr (Option α) :=
  match res with
  | .ok a => .ok (some a)
  | .error e => if isRedisErr e then .ok none else .error e

/-! ### Shared-store backend (`RedisLimiter`, ratelimit.py lines 127-181)

A Redis sorted set whose members are `str(now)` is a set of distinct
timestamps, so each key maps to a duplicate-free score list together with
the key's expiry instant (set by `EXPIRE key max_duration`; Redis treats a
key as gone strictly after its expiry instant).  `none` means the key is
absent. -/

abbrev RKey := List ℚ × ℚ

abbrev RedSt := String → Option RKey

def redisEmpty : RedSt := fun _ => none

def updRed (st : RedSt) (k : String) (v : Option RKey) : RedSt :=
  fun k' => if k' = k then v else st k'

/-- The scores visible at time `now`: an expired key reads as empty. -/
def zEffective (st : RedSt) (k : String) (now : ℚ) : List ℚ :=
  match st k with
  | none => []
  | some (es, ex) => if ex < now then [] else es

/-- `ZCOUNT key lo hi` — both bounds inclusive (ratelimit.py line 142 passes
plain numbers, not exclusive `(`-prefixed bounds). -/
def zcount (events : List ℚ) (lo hi : ℚ) : Nat :=
  events.countP fun t => decide (lo ≤ t ∧ t ≤ hi)

/-- The `check_rates` closure (ratelimit.py lines 138-147): pipeline of
`zcount(key, now - duration, now)` per window, then raise
`RateLimitExceeded` on the first count that meets its limit. -/
def RedisLimiter.check_rates (rates : List (Int × Int)) (es : List ℚ)
    (now : ℚ) : Except PyErr Unit :=
  match rates.find? (fun ld => decide (ld.1 ≤ (zcount es (now - ld.2) now : Int))) with
  | some _ => .error .rateLimitExceeded
  | none => .ok ()

/-- The `update_rates` closure (ratelimit.py lines 151-161): one pipeline of
`ZADD key {str(now): now}` (an upsert — a member with an identical
stringified timestamp is overwritten, not duplicated), `EXPIRE key
max_duration`, and `ZREMRANGEBYSCORE key 0 (now - max_duration)`.
After `pipe.zadd` is queued, evaluating `self.rates.max_duration` raises
`IndexError` when `rates` is empty, so the pipeline is never executed and
the store is unchanged (`none`). -/
def RedisLimiter.update_rates (r : RateLimit) (st : RedSt) (k : String)
    (now : ℚ) : Option RedSt :=
  match r.max_duration? with
  | none => none
  | some md =>
      let es0 := zEffective st k now
      let es1 := if now ∈ es0 then es0 else es0 ++ [now]
      let es2 := es1.filter fun e => decide (¬(0 ≤ e ∧ e ≤ now - (md : ℚ)))
      some (updRed st k (some (es2, now + md)))

/-- Outcomes of the two store round trips of one `try_ratelimit` call:
`none` means the round trip reaches the store and the commands succeed,
`some e` that it fails raising `e`. -/
structure StoreFailures where
  checkFail : Option PyErr := none
  updateFail : Option PyErr := none

def noFail : StoreFailures := ⟨none, none⟩

/-- `RedisLimiter.try_ratelimit` (ratelimit.py lines 134-163):
`await redis_try_run(check_rates, readonly=True)` — `RateLimitExceeded`
raised inside the coroutine is not a redis error and propagates; then
`await run_in_background(redis_try_run(update_rates))`, whose failure is
swallowed by the background wrapper and which leaves the store unchanged
when it fails or when `max_duration` raises `IndexError`. -/
def RedisLimiter.try_ratelimit (r : RateLimit) (base : String) (st : RedSt)
    (user : String) (now : ℚ) (fail : StoreFailures) : Option PyErr × RedSt :=
  let k := LimitBase.key base user
  let checkRes : Except PyErr Unit :=
    match fail.checkFail with
    | some e => .error e
    | none => RedisLimiter.check_rates r.rates (zEffective st k now) now
  match redis_try_run checkRes with
  | .error e => (some e, st)
  | .ok _ =>
      match fail.updateFail with
      | some _ => (none, st)
      | none =>
          match RedisLimiter.update_rates r st k now with
          | none => (none, st)
          | some st' => (none, st')

/-- `RedisLimiter.flush_user` (ratelimit.py lines 165-169):
`redis_try_run` around `DEL key`. -/
def RedisLimiter.flush_user (base : String) (st : RedSt) (user : String)
    (fail : Option PyErr) : Option PyErr × RedSt :=
  let k := LimitBase.key base user
  let res : Except PyErr Unit := match fail with
    | some e => .error e
    | none => .ok ()
  match redis_try_run res with
  | .error e => (some e, st)
  | .ok none => (none, st)
  | .ok (some _) => (none, updRed st k none)

/-- `RedisLimiter.reset` (ratelimit.py lines 171-181): cursor-paged
`SCAN match=key("*")` plus `DEL`, wrapped in `redis_try_run`; on success
every key whose name starts with `base_key ++ ":"` is deleted. -/
def RedisLimiter.reset (base : String) (st : RedSt) (fail : Option PyErr) :
    Option PyErr × RedSt :=
  let res : Except PyErr Unit := match fail with
    | some e => .error e
    | none => .ok ()
  match redis_try_run res with
  | .error e => (some e, st)
  | .ok none => (none, st)
  | .ok (some _) =>
      (none, fun k => if k.startsWith (base ++ ":") then none else st k)

/-! ### Call sequences

`memRun` / `redisRun` drive a backend through a list of
`(user_id, timestamp)` calls and collect the accept (`true`) / reject
(`false`) decision of each `try_ratelimit` call. -/

def memRun (r : RateLimit) (base : String) (st : MemSt)
    (calls : List (String × ℚ)) : List Bool × MemSt :=
  match calls with
  | [] => ([], st)
  | c :: rest =>
      let s := MemLimiter.try_ratelimit r base st c.1 c.2
      let rec' := memRun r base s.2 rest
      (s.1.isNone :: rec'.1, rec'.2)

def redisRun (r : RateLimit) (base : String) (st : RedSt)
    (calls : List (String × ℚ)) : List Bool × RedSt :=
  match calls with
  | [] => ([], st)
  | c :: rest =>
      let s := RedisLimiter.try_ratelimit r base st c.1 c.2 noFail
      let rec' := redisRun r base s.2 rest
      (s.1.isNone :: rec'.1, rec'.2)

/-! ### Facts about `RateLimit.rates` -/

/-- Number of set fields of a `RateLimit`. -/
def RateLimit.numSet (r : RateLimit) : Nat :=
  ([r.per_second, r.per_minute, r.per_hour, r.per_day].countP Option.isSome)

/-! ### Request-gating adapter layer (`fastapi_ratelimit.py`) -/

/-- `RateLimitSettings.get` (fastapi_ratelimit.py lines 25-40): exact name,
then wildcard `"*"`, then the caller-supplied default, else `KeyError`.
The `ratelimits` dict is modelled as an association list. -/
def RateLimitSettings.get (m : List (String × RateLimit)) (endpoint : String)
    (dflt : Option RateLimit) : Except PyErr RateLimit :=
  match m.lookup endpoint with
  | some r => .ok r
  | none =>
      match m.lookup "*" with
      | some w => .ok w
      | none =>
          match dflt with
          | some d => .ok d
          | none => .error .keyError

/-- The `_RateLimiter` adapter instance: `__init__` (fastapi_ratelimit.py
lines 51-70) stores the limiter and the user-id resolver on the instance.
The resolver is opaque to this model and represented by a tag. -/
structure AdapterModel where
  name : String
  resolved : RateLimit
  resolverId : Nat
deriving DecidableEq

/-- The `RateLimiter` factory (fastapi_ratelimit.py lines 105-145):
`settings.get(name, default_limits)` is evaluated at construction time,
then `limiter_class(resolved, name)` runs `LimitBase.__init__` with its
base-key length validation; both failures surface at construction. -/
def RateLimiterCtor (m : List (String × RateLimit)) (name : String)
    (dflt : Option RateLimit) (resolverId : Nat) :
    Except PyErr AdapterModel :=
  match RateLimitSettings.get m name dflt with
  | .error e => .error e
  | .ok r =>
      match LimitBase.init name with
      | .error e => .error e
      | .ok _ => .ok ⟨name, r, resolverId⟩

/-- Modelled from the spec: the module-global `_all_fastapi_ratelimiters`
registry and the registration in `_RateLimiter.__init__` are missing from
the copy of fastapi_ratelimit.py under src/ but are imported and exercised
by tests/util/test_fastapi_ratelimit.py (`test_user_reset` resets
`fastapi_ratelimit._all_fastapi_ratelimiters` and relies on every
construction registering its adapter).  Per spec §3/§4.5, every successful
adapter construction appends the new (limiter backend, user-id resolver)
pair to the process-wide append-only registry and returns the adapter. -/
def adapterConstruct (registry : List AdapterModel) (a : AdapterModel) :
    List AdapterModel × AdapterModel :=
  (registry ++ [a], a)

/-- `_RateLimiter.reset_user` (fastapi_ratelimit.py lines 72-76) delegates
to `self.limiter.flush_user` — here for a `MemLimiter` backend. -/
def adapterResetUserMem (base : String) (st : MemSt) (user : String) :
    Option PyErr × MemSt :=
  MemLimiter.flush_user base st user

/-- Modelled from the spec: `reset_all_ratelimiters_for_user` is imported
from moya.util.fastapi_ratelimit by tests/util/test_fastapi_ratelimit.py
but missing from the copy under src/.  Per spec §4.5/§6, it walks every
registered adapter and flushes the given user from that adapter's backend
(here `MemLimiter` backends, each paired with its own private state). -/
def reset_all_ratelimiters_for_user
    (adapters : List (AdapterModel × MemSt)) (user : String) :
    List (AdapterModel × MemSt) :=
  adapters.map fun p => (p.1, (MemLimiter.flush_user p.1.name p.2 user).2)

/-- `_RateLimiter.reset_user` for a `RedisLimiter` backend. -/
def adapterResetUserRedis (base : String) (st : RedSt) (user : String)
    (fail : Option PyErr) : Option PyErr × RedSt :=
  RedisLimiter.flush_user base st user fail

/-- `_RateLimiter.reset_all` (fastapi_ratelimit.py lines 78-82) delegates
to `self.limiter.reset` — here for a `MemLimiter` backend. -/
def adapterResetAllMem (st : MemSt) : Option PyErr × MemSt :=
  MemLimiter.reset st

/-- The number of backend `try_ratelimit` calls the request-gating
dependency makes for one request (fastapi_ratelimit.py lines 84-102): zero
when `is_empty` (the dependency is `Depends(_null_fn)`), zero when the
resolver returns no identity, otherwise one. -/
def dependencyBackendCalls (r : RateLimit) (user : Option String) : Nat :=
  if r.is_empty then 0
  else
    match user with
    | none => 0
    | some _ => 1

/-- Store commands actually sent by one `RedisLimiter.try_ratelimit` call
(ratelimit.py lines 134-163): the check pipeline queues one `ZCOUNT` per
configured rate — and the redis client returns `[]` for a pipeline with an
empty command stack without contacting the store — while the background
update pipeline sends its three commands (`ZADD`, `EXPIRE`,
`ZREMRANGEBYSCORE`) only when `rates` is non-empty: with empty `rates`,
evaluating `self.rates.max_duration` raises `IndexError` after `ZADD` is
queued but before `pipe.execute()`, so nothing reaches the store. -/
def RedisLimiter.tryStoreCommands (r : RateLimit) : Nat :=
  r.rates.length +
    match r.max_duration? with
    | none => 0
    | some _ => 3

/-! ### Runs under an empty configuration -/

/-- A concrete adapter value for the C6 witness. -/
def a6 : AdapterModel :=
  ⟨"test", {}, 0⟩

/-! ### Single-window (`per_second = N`) run characterization -/

/-- A configuration with only `per_second` set. -/
def rlPS (N : ℕ) : RateLimit :=
  { per_second := some (N : Int) }

/-- Relation between the memory backend's event list `me` for one key and
the store's state `sk` for the same key. -/
def InvK (md : Int) (me : List ℚ) (sk : Option RKey) : Prop :=
  match sk with
  | none => me = []
  | some (es, ex) => ∃ last, last ∈ me ∧ (∀ e ∈ me, e ≤ last) ∧
      es = me.filter (fun e => decide (last - (md : ℚ) < e)) ∧
      ex = last + md

/-! ### Theorems -/

theorem rates_duration_mem {r : RateLimit} {ld : Int × Int}
    (hmem : ld ∈ r.rates) :
    ld.2 = 1 ∨ ld.2 = 60 ∨ ld.2 = 3600 ∨ ld.2 = 86400 := by
  obtain ⟨s, m, h, d⟩ := r
  cases s <;> cases m <;> cases h <;> cases d <;>
    simp_all [RateLimit.rates, List.filterMap, Prod.ext_iff] <;> omega

theorem rates_duration_le_max {r : RateLimit} {ld : Int × Int}
    (hmem : ld ∈ r.rates) {md : Int} (hmd : r.max_duration? = some md) :
    ld.2 ≤ md := by
  obtain ⟨s, m, h, d⟩ := r
  cases s <;> cases m <;> cases h <;> cases d <;>
    simp_all [RateLimit.rates, RateLimit.max_duration?, List.filterMap,
      Prod.ext_iff] <;>
    omega

theorem max_duration_pos {r : RateLimit} {md : Int}
    (hmd : r.max_duration? = some md) : 0 < md := by
  obtain ⟨s, m, h, d⟩ := r
  cases s <;> cases m <;> cases h <;> cases d <;>
    simp_all [RateLimit.rates, RateLimit.max_duration?, List.filterMap] <;>
    omega

theorem max_duration_none_iff {r : RateLimit} :
    r.max_duration? = none ↔ r.rates = [] := by
  obtain ⟨s, m, h, d⟩ := r
  cases s <;> cases m <;> cases h <;> cases d <;>
    simp_all [RateLimit.rates, RateLimit.max_duration?, List.filterMap]

theorem is_empty_rates {r : RateLimit} :
    r.is_empty = true ↔ r.rates = [] := by
  obtain ⟨s, m, h, d⟩ := r
  cases s <;> cases m <;> cases h <;> cases d <;>
    simp_all [RateLimit.rates, RateLimit.is_empty, List.filterMap]

/-- **C9.** For every `RateLimit` configuration with k set fields, `rates`
has exactly k entries, one `(limit, duration)` pair per set field with
durations drawn from (1, 60, 3600, 86400) in strictly ascending duration
order; for every non-empty configuration `max_duration` is the largest
configured duration. -/
theorem C9_rates_shape (r : RateLimit) :
    r.rates.length = RateLimit.numSet r ∧
    (∀ l, r.per_second = some l → ((l, (1 : Int)) ∈ r.rates)) ∧
    (∀ l, r.per_minute = some l → ((l, (60 : Int)) ∈ r.rates)) ∧
    (∀ l, r.per_hour = some l → ((l, (3600 : Int)) ∈ r.rates)) ∧
    (∀ l, r.per_day = some l → ((l, (86400 : Int)) ∈ r.rates)) ∧
    List.Pairwise (fun a b : Int × Int => a.2 < b.2) r.rates ∧
    (∀ ld ∈ r.rates, ld.2 = 1 ∨ ld.2 = 60 ∨ ld.2 = 3600 ∨ ld.2 = 86400) ∧
    (r.is_empty = false →
      ∃ md, r.max_duration? = some md ∧ (∀ ld ∈ r.rates, ld.2 ≤ md) ∧
        md ∈ r.rates.map Prod.snd) := by
  obtain ⟨s, m, h, d⟩ := r
  cases s <;> cases m <;> cases h <;> cases d <;>
    simp_all [RateLimit.rates, RateLimit.numSet, RateLimit.max_duration?,
      RateLimit.is_empty, List.filterMap, List.pairwise_cons]

/-- Witness for C9 at the configuration `{per_minute := 2, per_hour := 7}`. -/
theorem C9_rates_shape_witness :
    (RateLimit.rates { per_minute := some 2, per_hour := some 7 }).length =
      RateLimit.numSet { per_minute := some 2, per_hour := some 7 } ∧
    ((2 : Int), (60 : Int)) ∈
      RateLimit.rates { per_minute := some 2, per_hour := some 7 } ∧
    ∃ md, RateLimit.max_duration? { per_minute := some 2, per_hour := some 7 }
      = some md := by
  refine ⟨(C9_rates_shape _).1, (C9_rates_shape _).2.2.1 2 rfl, ?_⟩
  obtain ⟨md, hmd, -, -⟩ := (C9_rates_shape
    { per_minute := some 2, per_hour := some 7 }).2.2.2.2.2.2.2 (by decide)
  exact ⟨md, hmd⟩

theorem memRun_rates_nil {r : RateLimit} (hr : r.rates = []) (base : String) :
    ∀ (calls : List (String × ℚ)) (st : MemSt),
      (memRun r base st calls).1 = List.replicate calls.length true := by
  intro calls
  induction calls with
  | nil => intro st; rfl
  | cons c rest ih =>
      intro st
      simp [memRun, MemLimiter.try_ratelimit, hr, firstViolation,
        List.replicate, ih]

theorem redisRun_rates_nil {r : RateLimit} (hr : r.rates = [])
    (base : String) :
    ∀ (calls : List (String × ℚ)) (st : RedSt),
      (redisRun r base st calls).1 = List.replicate calls.length true := by
  have hmd : r.max_duration? = none := by
    simp [RateLimit.max_duration?, hr]
  intro calls
  induction calls with
  | nil => intro st; rfl
  | cons c rest ih =>
      intro st
      simp [redisRun, RedisLimiter.try_ratelimit, RedisLimiter.check_rates,
        RedisLimiter.update_rates, hr, hmd, redis_try_run, noFail,
        List.replicate, ih]

/-- **C7.** The base-key length validation in `LimitBase.__init__` checks
`len(key(""))` — the base_key plus the `":"` separator — against 4, so a
3-character base_key like "abc" passes even though it is shorter than the
documented 4-character minimum (the code's own error message says "Must be
at least 4 characters"); only base_keys of at most 2 characters raise. -/
theorem C7_base_key_check :
    ("abc".length < 4 ∧ LimitBase.init "abc" = .ok ()) ∧
    LimitBase.init "ab" = .error .valueError ∧
    LimitBase.init "abcd" = .ok () := by decide

/-- **C10.** `MemLimiter.flush_user` raises `KeyError` exactly when the
dict has no entry for `(base_key, user_id)`; an entry exists after any
`try_ratelimit` call for that user (even a rejected one), and no entry
exists in a fresh or reset limiter. -/
theorem C10_flush_user_keyerror (base user : String) (st : MemSt) :
    (st (LimitBase.key base user) = none →
      MemLimiter.flush_user base st user = (some .keyError, st)) ∧
    (∀ l, st (LimitBase.key base user) = some l →
      (MemLimiter.flush_user base st user).1 = none ∧
      (MemLimiter.flush_user base st user).2 (LimitBase.key base user) =
        none ∧
      ∀ k', k' ≠ LimitBase.key base user →
        (MemLimiter.flush_user base st user).2 k' = st k') ∧
    (∀ r now,
      ((MemLimiter.try_ratelimit r base st user now).2
        (LimitBase.key base user)).isSome = true) ∧
    memEmpty (LimitBase.key base user) = none ∧
    (MemLimiter.reset st).2 (LimitBase.key base user) = none := by
  refine ⟨?_, ?_, ?_, rfl, rfl⟩
  · intro hnone
    simp [MemLimiter.flush_user, hnone]
  · intro l hsome
    simp [MemLimiter.flush_user, hsome, updMem]
    intro k' hk'
    simp [hk']
  · intro r now
    simp only [MemLimiter.try_ratelimit]
    cases hv : firstViolation r.rates ((st (LimitBase.key base user)).getD [])
        now <;>
      simp [hv, updMem]

/-- **C8.** Configuration resolution returns the map entry for the name if
present; otherwise the wildcard `"*"` entry if present; otherwise the
caller-supplied default if given; otherwise it raises `KeyError` — and a
resolution error surfaces from the adapter constructor (construction time),
which is where `settings.get` is evaluated. -/
theorem C8_config_resolution (m : List (String × RateLimit))
    (endpoint : String) (dflt : Option RateLimit) :
    (∀ r, m.lookup endpoint = some r →
      RateLimitSettings.get m endpoint dflt = .ok r) ∧
    (m.lookup endpoint = none → ∀ w, m.lookup "*" = some w →
      RateLimitSettings.get m endpoint dflt = .ok w) ∧
    (m.lookup endpoint = none → m.lookup "*" = none → ∀ d, dflt = some d →
      RateLimitSettings.get m endpoint dflt = .ok d) ∧
    (m.lookup endpoint = none → m.lookup "*" = none → dflt = none →
      RateLimitSettings.get m endpoint dflt = .error .keyError) ∧
    (∀ e rid, RateLimitSettings.get m endpoint dflt = .error e →
      RateLimiterCtor m endpoint dflt rid = .error e) := by
  refine ⟨?_, ?_, ?_, ?_, ?_⟩
  · intro r h
    simp [RateLimitSettings.get, h]
  · intro h w hw
    simp [RateLimitSettings.get, h, hw]
  · intro h hw d hd
    simp [RateLimitSettings.get, h, hw, hd]
  · intro h hw hd
    simp [RateLimitSettings.get, h, hw, hd]
  · intro e rid hget
    simp [RateLimiterCtor, hget]

/-- Witness for C8: a name hit, a wildcard fall-through, a `KeyError`, and
its propagation through the constructor, at concrete maps. -/
theorem C8_config_resolution_witness :
    RateLimitSettings.get [("foo", { per_second := some 1 })] "foo" none =
      .ok { per_second := some 1 } ∧
    RateLimitSettings.get [("*", { per_day := some 9 })] "bar" none =
      .ok { per_day := some 9 } ∧
    RateLimitSettings.get [] "bar" none = .error .keyError ∧
    RateLimiterCtor [] "bar" none 0 = .error .keyError := by
  refine ⟨?_, ?_, ?_, ?_⟩
  · exact (C8_config_resolution [("foo", { per_second := some 1 })] "foo"
      none).1 _ (by decide)
  · exact (C8_config_resolution [("*", { per_day := some 9 })] "bar"
      none).2.1 (by decide) _ (by decide)
  · exact (C8_config_resolution [] "bar" none).2.2.2.1 rfl rfl rfl
  · exact (C8_config_resolution [] "bar" none).2.2.2.2 .keyError 0
      ((C8_config_resolution [] "bar" none).2.2.2.1 rfl rfl rfl)

/-- **C3.** With an `is_empty` config no call is ever rejected on either
backend, for any user and any call volume, and no store I/O is performed:
the check pipeline contains zero `ZCOUNT` commands (the client
short-circuits an empty pipeline without contacting the store), the
background update raises `IndexError` computing `max_duration` before
`pipe.execute()` so its queued `ZADD` is never sent, and the request-gating
dependency additionally short-circuits to a no-op that never calls the
backend at all. -/
theorem C3_empty_config (r : RateLimit) (base : String)
    (calls : List (String × ℚ)) (ms : MemSt) (rs : RedSt)
    (he : r.is_empty = true) :
    (memRun r base ms calls).1 = List.replicate calls.length true ∧
    (redisRun r base rs calls).1 = List.replicate calls.length true ∧
    RedisLimiter.tryStoreCommands r = 0 ∧
    (∀ u, dependencyBackendCalls r u = 0) := by
  have hr : r.rates = [] := is_empty_rates.mp he
  have hmd : r.max_duration? = none := max_duration_none_iff.mpr hr
  refine ⟨memRun_rates_nil hr base calls ms,
    redisRun_rates_nil hr base calls rs, ?_, ?_⟩
  · simp [RedisLimiter.tryStoreCommands, hr, hmd]
  · intro u
    simp [dependencyBackendCalls, he]

/-- Witness for C3: three calls under the empty config are all allowed on
both backends, zero store commands are sent, and the dependency makes no
backend call. -/
theorem C3_empty_config_witness :
    (memRun {} "test" memEmpty [("u", 0), ("u", 0), ("u", 1)]).1 =
      [true, true, true] ∧
    (redisRun {} "test" redisEmpty [("u", 0), ("u", 0), ("u", 1)]).1 =
      [true, true, true] ∧
    RedisLimiter.tryStoreCommands {} = 0 ∧
    dependencyBackendCalls {} (some "u") = 0 := by
  obtain ⟨h1, h2, h3, h4⟩ :=
    C3_empty_config {} "test" [("u", 0), ("u", 0), ("u", 1)] memEmpty
      redisEmpty rfl
  exact ⟨h1, h2, h3, h4 (some "u")⟩

/-- **C6.** Every successful adapter construction appends the (limiter
backend, user-id resolver) pair to the process-wide registry, and
`reset_all_ratelimiters_for_user(user_id)` walks every registered adapter
and flushes that user from its backend: afterwards the user's key is gone
from every registered backend while every other key of every backend is
untouched (registry and reset-all operation modelled from the spec; they
are exercised by the repository's tests but missing from the staged module
copy). -/
theorem C6_registry (reg : List AdapterModel) (a : AdapterModel)
    (adapters : List (AdapterModel × MemSt)) (user : String) :
    adapterConstruct reg a = (reg ++ [a], a) ∧
    ((adapterConstruct reg a).1).length = reg.length + 1 ∧
    a ∈ (adapterConstruct reg a).1 ∧
    (reset_all_ratelimiters_for_user adapters user).map Prod.fst =
      adapters.map Prod.fst ∧
    (∀ p ∈ adapters,
      (p.1, (MemLimiter.flush_user p.1.name p.2 user).2) ∈
        reset_all_ratelimiters_for_user adapters user) ∧
    (∀ p ∈ reset_all_ratelimiters_for_user adapters user,
      p.2 (LimitBase.key p.1.name user) = none) ∧
    (∀ p ∈ adapters, ∀ k', k' ≠ LimitBase.key p.1.name user →
      (MemLimiter.flush_user p.1.name p.2 user).2 k' = p.2 k') := by
  refine ⟨rfl, by simp [adapterConstruct], ?_, ?_, ?_, ?_, ?_⟩
  · exact List.mem_append_right reg (List.mem_singleton.mpr rfl)
  · simp [reset_all_ratelimiters_for_user]
  · intro p hp
    exact List.mem_map_of_mem _ hp
  · intro p hp
    obtain ⟨q, hq, rfl⟩ := List.mem_map.mp hp
    cases hqk : q.2 (LimitBase.key q.1.name user) with
    | some l => simp [MemLimiter.flush_user, hqk, updMem]
    | none => simp [MemLimiter.flush_user, hqk]
  · intro p hp k' hk'
    cases hpk : p.2 (LimitBase.key p.1.name user) with
    | some l => simp [MemLimiter.flush_user, hpk, updMem, hk']
    | none => simp [MemLimiter.flush_user, hpk]

/-- Witness for C6 at a concrete registry and a one-adapter process whose
backend holds an entry for user "u". -/
theorem C6_registry_witness :
    adapterConstruct [] a6 = ([a6], a6) ∧
    (reset_all_ratelimiters_for_user
      [(a6, updMem memEmpty (LimitBase.key "test" "u") (some [0]))]
      "u").map Prod.fst = [a6] ∧
    (MemLimiter.flush_user "test"
      (updMem memEmpty (LimitBase.key "test" "u") (some [0])) "u").2
      (LimitBase.key "test" "u") = none := by
  refine ⟨?_, ?_, ?_⟩
  · have h := (C6_registry [] a6 [] "u").1
    simpa using h
  · have h := (C6_registry [] a6
      [(a6, updMem memEmpty (LimitBase.key "test" "u") (some [0]))]
      "u").2.2.2.1
    simpa using h
  · have h := (C6_registry [] a6
      [(a6, updMem memEmpty (LimitBase.key "test" "u") (some [0]))]
      "u").2.2.2.2.2.1
      (a6, (MemLimiter.flush_user "test"
        (updMem memEmpty (LimitBase.key "test" "u") (some [0])) "u").2)
      (by simp [reset_all_ratelimiters_for_user, a6])
    simpa [a6] using h

/-- **C4.** Store failures fail open: if the count round trip fails with a
connectivity/timeout/store error the call completes normally (no limit
applied); if the counts were read and no window is violated, a failing
background update is swallowed and the call still completes; `flush_user`
and `reset` likewise absorb store errors and leave the store unchanged. -/
theorem C4_fail_open (r : RateLimit) (base : String) (st : RedSt)
    (user : String) (now : ℚ) (e : PyErr) (he : isRedisErr e = true) :
    (∀ uf, (RedisLimiter.try_ratelimit r base st user now
      ⟨some e, uf⟩).1 = none) ∧
    (RedisLimiter.check_rates r.rates
        (zEffective st (LimitBase.key base user) now) now = .ok () →
      RedisLimiter.try_ratelimit r base st user now ⟨none, some e⟩ =
        (none, st)) ∧
    RedisLimiter.flush_user base st user (some e) = (none, st) ∧
    RedisLimiter.reset base st (some e) = (none, st) := by
  refine ⟨?_, ?_, ?_, ?_⟩
  · intro uf
    cases uf with
    | some e2 => simp [RedisLimiter.try_ratelimit, redis_try_run, he]
    | none =>
        simp only [RedisLimiter.try_ratelimit, redis_try_run, he, if_pos]
        cases hmd : r.max_duration? <;>
          simp [RedisLimiter.update_rates, hmd]
  · intro hok
    simp [RedisLimiter.try_ratelimit, hok, redis_try_run]
  · simp [RedisLimiter.flush_user, redis_try_run, he]
  · simp [RedisLimiter.reset, redis_try_run, he]

/-- Witness for C4 at a concrete timeout failure. -/
theorem C4_fail_open_witness :
    (RedisLimiter.try_ratelimit { per_second := some 1 } "test" redisEmpty
      "u" 0 ⟨some .timeoutError, none⟩).1 = none ∧
    RedisLimiter.flush_user "test" redisEmpty "u" (some .timeoutError) =
      (none, redisEmpty) ∧
    RedisLimiter.reset "test" redisEmpty (some .timeoutError) =
      (none, redisEmpty) := by
  obtain ⟨h1, -, h3, h4⟩ :=
    C4_fail_open { per_second := some 1 } "test" redisEmpty "u" 0
      .timeoutError rfl
  exact ⟨h1 none, h3, h4⟩

/-- The only exception `check_rates` itself raises is `RateLimitExceeded`. -/
theorem check_rates_error_eq {rates : List (Int × Int)} {es : List ℚ}
    {now : ℚ} {e : PyErr}
    (h : RedisLimiter.check_rates rates es now = .error e) :
    e = .rateLimitExceeded := by
  revert h
  unfold RedisLimiter.check_rates
  cases List.find?
      (fun ld => decide (ld.1 ≤ (zcount es (now - ld.2) now : Int)))
      rates with
  | none => simp
  | some ld =>
      intro h
      injection h with h2
      exact h2.symm

/-- C5 counterexample: with `per_second=2`, two calls at the identical
timestamp 0 both succeed, and the in-memory backend records two events, but
the shared-store backend's second `ZADD` upserts the member `str(0)` that
already exists, so the store still holds exactly one event afterwards — the
second successful call did not record a new event, contradicting "exactly
one event with the current timestamp is recorded" per successful call. -/
theorem C5_counterexample :
    (redisRun { per_second := some 2 } "test" redisEmpty
      [("u", 0), ("u", 0)]).1 = [true, true] ∧
    (redisRun { per_second := some 2 } "test" redisEmpty
      [("u", 0), ("u", 0)]).2 (LimitBase.key "test" "u") = some ([0], 1) ∧
    (memRun { per_second := some 2 } "test" memEmpty
      [("u", 0), ("u", 0)]).2 (LimitBase.key "test" "u") = some [0, 0] := by
  refine ⟨?_, ?_, ?_⟩ <;> with_unfolding_all decide

/-- **C5 (amended).** A rejected `try_ratelimit` call records no event and
leaves the event state unchanged on both backends (the in-memory dict may
gain an empty entry via `setdefault`, but every key's event list is
unchanged); a successful call appends exactly one event with the current
timestamp in the in-memory backend, while the shared-store backend upserts
a member keyed by the stringified timestamp (adding a new event only when
no event with the identical timestamp exists) and prunes events with scores
in `[0, now - max_duration]`, touching no other key. -/
theorem C5_reject_no_record (r : RateLimit) (base user : String) (now : ℚ) :
    (∀ st : MemSt,
      (MemLimiter.try_ratelimit r base st user now).1 =
          some .rateLimitExceeded →
        ∀ k, ((MemLimiter.try_ratelimit r base st user now).2 k).getD [] =
          (st k).getD []) ∧
    (∀ st : MemSt,
      (MemLimiter.try_ratelimit r base st user now).1 = none →
        (MemLimiter.try_ratelimit r base st user now).2
            (LimitBase.key base user) =
          some ((st (LimitBase.key base user)).getD [] ++ [now]) ∧
        ∀ k, k ≠ LimitBase.key base user →
          (MemLimiter.try_ratelimit r base st user now).2 k = st k) ∧
    (∀ st : RedSt,
      (RedisLimiter.try_ratelimit r base st user now noFail).1 =
          some .rateLimitExceeded →
        (RedisLimiter.try_ratelimit r base st user now noFail).2 = st) ∧
    (∀ (st : RedSt) (md : Int), r.max_duration? = some md →
      (RedisLimiter.try_ratelimit r base st user now noFail).1 = none →
      (∀ k, k ≠ LimitBase.key base user →
        (RedisLimiter.try_ratelimit r base st user now noFail).2 k = st k) ∧
      ∃ es,
        (RedisLimiter.try_ratelimit r base st user now noFail).2
            (LimitBase.key base user) = some (es, now + md) ∧
        now ∈ es ∧
        ∀ e, e ∈ es ↔ (e = now ∨
          (e ∈ zEffective st (LimitBase.key base user) now ∧
            ¬(0 ≤ e ∧ e ≤ now - (md : ℚ))))) := by
  refine ⟨?_, ?_, ?_, ?_⟩
  · intro st h1 k
    revert h1
    simp only [MemLimiter.try_ratelimit]
    cases hv : firstViolation r.rates
        ((st (LimitBase.key base user)).getD []) now with
    | none => intro h; exact absurd h (by simp)
    | some ld =>
        intro _
        simp only [updMem]
        split
        · next heq => simp [heq]
        · rfl
  · intro st h1
    revert h1
    simp only [MemLimiter.try_ratelimit]
    cases hv : firstViolation r.rates
        ((st (LimitBase.key base user)).getD []) now with
    | some ld => intro h; exact absurd h (by simp)
    | none =>
        intro _
        constructor
        · simp [updMem]
        · intro k hk
          simp [updMem, hk]
  · intro st h1
    revert h1
    simp only [RedisLimiter.try_ratelimit, noFail]
    cases hc : RedisLimiter.check_rates r.rates
        (zEffective st (LimitBase.key base user) now) now with
    | ok u =>
        simp only [redis_try_run]
        cases RedisLimiter.update_rates r st (LimitBase.key base user)
            now <;> simp
    | error e =>
        have he : e = PyErr.rateLimitExceeded := check_rates_error_eq hc
        subst he
        simp [redis_try_run, isRedisErr]
  · intro st md hmd h1
    cases hc : RedisLimiter.check_rates r.rates
        (zEffective st (LimitBase.key base user) now) now with
    | error e =>
        exfalso
        have he : e = PyErr.rateLimitExceeded := check_rates_error_eq hc
        subst he
        revert h1
        simp [RedisLimiter.try_ratelimit, noFail, hc, redis_try_run,
          isRedisErr]
    | ok u =>
        have hmdpos : (0 : ℚ) < (md : ℚ) := by
          exact_mod_cast max_duration_pos hmd
        have hres : RedisLimiter.try_ratelimit r base st user now noFail =
            (none, updRed st (LimitBase.key base user)
              (some (((if now ∈ zEffective st (LimitBase.key base user) now
                  then zEffective st (LimitBase.key base user) now
                  else zEffective st (LimitBase.key base user) now ++
                    [now]).filter
                fun e => decide (¬(0 ≤ e ∧ e ≤ now - (md : ℚ)))),
                now + md))) := by
          simp [RedisLimiter.try_ratelimit, noFail, hc, redis_try_run,
            RedisLimiter.update_rates, hmd]
        rw [hres]
        constructor
        · intro k hk
          simp [updRed, hk]
        · refine ⟨(if now ∈ zEffective st (LimitBase.key base user) now
              then zEffective st (LimitBase.key base user) now
              else zEffective st (LimitBase.key base user) now ++
                [now]).filter
              (fun e => decide (¬(0 ≤ e ∧ e ≤ now - (md : ℚ)))),
            by simp [updRed], ?_, ?_⟩
          · simp only [List.mem_filter]
            constructor
            · by_cases hn : now ∈ zEffective st (LimitBase.key base user)
                  now <;> simp [hn]
            · simp only [decide_eq_true_eq]
              intro hcon
              have := hcon.2
              linarith
          · intro e
            simp only [List.mem_filter, decide_eq_true_eq]
            constructor
            · rintro ⟨he1, hp⟩
              by_cases hen : e = now
              · exact Or.inl hen
              · refine Or.inr ⟨?_, hp⟩
                by_cases hn : now ∈ zEffective st (LimitBase.key base user)
                    now
                · simpa [hn] using he1
                · rcases (by simpa [hn] using he1 :
                      e ∈ zEffective st (LimitBase.key base user) now ∨
                        e = now) with h | h
                  · exact h
                  · exact absurd h hen
            · rintro (hen | ⟨he1, hp⟩)
              · subst hen
                refine ⟨?_, ?_⟩
                · split
                  · next hcond => exact hcond
                  · simp
                · intro hcon
                  have := hcon.2
                  linarith
              · refine ⟨?_, hp⟩
                by_cases hn : now ∈ zEffective st (LimitBase.key base user)
                    now <;> simp [hn, he1]

/-- Witness for C5 (amended): a successful call on a fresh in-memory
limiter appends exactly `[0]`, and a rejected shared-store call leaves the
store untouched. -/
theorem C5_reject_no_record_witness :
    (MemLimiter.try_ratelimit { per_second := some 2 } "test" memEmpty "u"
      0).2 (LimitBase.key "test" "u") = some [0] ∧
    (RedisLimiter.try_ratelimit { per_second := some 1 } "test"
      (updRed redisEmpty (LimitBase.key "test" "u") (some ([1/2], 3/2)))
      "u" 1 noFail).2 =
      updRed redisEmpty (LimitBase.key "test" "u") (some ([1/2], 3/2)) := by
  constructor
  · exact ((C5_reject_no_record { per_second := some 2 } "test" "u" 0).2.1
      memEmpty (by with_unfolding_all decide)).1
  · exact (C5_reject_no_record { per_second := some 1 } "test" "u" 1).2.2.1
      (updRed redisEmpty (LimitBase.key "test" "u") (some ([1/2], 3/2)))
      (by with_unfolding_all decide)

/-- Witness for C10: on a fresh limiter `flush_user` raises `KeyError`;
after one `try_ratelimit` call it completes and removes the entry. -/
theorem C10_flush_user_keyerror_witness :
    MemLimiter.flush_user "test" memEmpty "u" = (some .keyError, memEmpty) ∧
    ((MemLimiter.try_ratelimit { per_second := some 5 } "test" memEmpty "u"
      0).2 (LimitBase.key "test" "u")).isSome = true := by
  constructor
  · exact (C10_flush_user_keyerror "test" "u" memEmpty).1 rfl
  · exact (C10_flush_user_keyerror "test" "u" memEmpty).2.2.1
      { per_second := some 5 } 0

theorem rlPS_rates (N : ℕ) : (rlPS N).rates = [((N : Int), 1)] := rfl

theorem rlPS_max (N : ℕ) : (rlPS N).max_duration? = some 1 := rfl

theorem mem_ps_run (N : ℕ) (base u : String) :
    ∀ (ts : List ℚ) (prev : List ℚ) (st : MemSt),
      (st (LimitBase.key base u)).getD [] = prev →
      (∀ t ∈ ts, ∀ e ∈ prev, t - 1 < e) →
      List.Pairwise (fun a b : ℚ => a < b ∧ b - a < 1) ts →
      (memRun (rlPS N) base st (ts.map fun t => (u, t))).1 =
        List.replicate (min ts.length (N - prev.length)) true ++
          List.replicate (ts.length - (N - prev.length)) false := by
  intro ts
  induction ts with
  | nil =>
      intro prev st hst hwin hpw
      simp [memRun]
  | cons t rest ih =>
      intro prev st hst hwin hpw
      obtain ⟨hpw1, hpw2⟩ := List.pairwise_cons.mp hpw
      have hcount : countWindow prev (t - 1) = prev.length := by
        unfold countWindow
        refine List.countP_eq_length.mpr ?_
        intro e he
        simpa using hwin t (List.mem_cons_self t rest) e he
      by_cases hcmp : N ≤ prev.length
      · have hfv : firstViolation (rlPS N).rates prev t =
            some ((N : Int), 1) := by
          unfold firstViolation
          rw [rlPS_rates]
          simp [List.find?, hcount, hcmp]
        have hstep : MemLimiter.try_ratelimit (rlPS N) base st u t =
            (some .rateLimitExceeded,
              updMem st (LimitBase.key base u) (some prev)) := by
          simp only [MemLimiter.try_ratelimit, hst]
          rw [hfv]
        have hN0 : N - prev.length = 0 := by omega
        simp only [List.map_cons, memRun, hstep, Option.isNone_some]
        rw [ih prev _ (by simp [updMem, hst])
          (fun t' ht' e he => hwin t' (List.mem_cons_of_mem t ht') e he)
          hpw2]
        simp [hN0, List.replicate_succ]
      · have hfv : firstViolation (rlPS N).rates prev t = none := by
          unfold firstViolation
          rw [rlPS_rates]
          simp [List.find?, hcount, hcmp]
        have hstep : MemLimiter.try_ratelimit (rlPS N) base st u t =
            (none, updMem (updMem st (LimitBase.key base u) (some prev))
              (LimitBase.key base u) (some (prev ++ [t]))) := by
          simp only [MemLimiter.try_ratelimit, hst]
          rw [hfv]
        have hwin' : ∀ t' ∈ rest, ∀ e ∈ prev ++ [t], t' - 1 < e := by
          intro t' ht' e he
          rcases List.mem_append.mp he with h | h
          · exact hwin t' (List.mem_cons_of_mem t ht') e h
          · have heq : e = t := by simpa using h
            subst heq
            have := hpw1 t' ht'
            linarith [this.2]
        simp only [List.map_cons, memRun, hstep, Option.isNone_none]
        rw [ih (prev ++ [t]) _ (by simp [updMem]) hwin' hpw2]
        have hlen : (prev ++ [t]).length = prev.length + 1 := by simp
        rw [hlen]
        have h1 : min (rest.length + 1) (N - prev.length) =
            min rest.length (N - (prev.length + 1)) + 1 := by omega
        have h2 : rest.length + 1 - (N - prev.length) =
            rest.length - (N - (prev.length + 1)) := by omega
        simp only [List.length_cons, h1, h2, List.replicate_succ,
          List.cons_append]

theorem redis_ps_run (N : ℕ) (base u : String) :
    ∀ (ts : List ℚ) (prev : List ℚ) (st : RedSt),
      ((st (LimitBase.key base u) = none ∧ prev = []) ∨
        (∃ ex, st (LimitBase.key base u) = some (prev, ex) ∧
          ∀ t ∈ ts, t ≤ ex)) →
      (∀ t ∈ ts, ∀ e ∈ prev, t - 1 < e ∧ e < t) →
      List.Pairwise (fun a b : ℚ => a < b ∧ b - a < 1) ts →
      (redisRun (rlPS N) base st (ts.map fun t => (u, t))).1 =
        List.replicate (min ts.length (N - prev.length)) true ++
          List.replicate (ts.length - (N - prev.length)) false := by
  intro ts
  induction ts with
  | nil =>
      intro prev st hst hwin hpw
      simp [redisRun]
  | cons t rest ih =>
      intro prev st hst hwin hpw
      obtain ⟨hpw1, hpw2⟩ := List.pairwise_cons.mp hpw
      have heff : zEffective st (LimitBase.key base u) t = prev := by
        rcases hst with ⟨hk, rfl⟩ | ⟨ex, hk, hex⟩
        · simp [zEffective, hk]
        · have : ¬ ex < t := not_lt.mpr (hex t (List.mem_cons_self t rest))
          simp [zEffective, hk, this]
      have hcount : zcount prev (t - 1) t = prev.length := by
        unfold zcount
        refine List.countP_eq_length.mpr ?_
        intro e he
        have h1 := (hwin t (List.mem_cons_self t rest) e he).1
        have h2 := (hwin t (List.mem_cons_self t rest) e he).2
        simp only [decide_eq_true_eq]
        constructor <;> linarith
      by_cases hcmp : N ≤ prev.length
      · have hchk : RedisLimiter.check_rates (rlPS N).rates
            (zEffective st (LimitBase.key base u) t) t =
            .error .rateLimitExceeded := by
          unfold RedisLimiter.check_rates
          rw [rlPS_rates, heff]
          simp [List.find?, hcount, hcmp]
        have hstep : RedisLimiter.try_ratelimit (rlPS N) base st u t noFail =
            (some .rateLimitExceeded, st) := by
          simp [RedisLimiter.try_ratelimit, noFail, hchk, redis_try_run,
            isRedisErr]
        have hN0 : N - prev.length = 0 := by omega
        simp only [List.map_cons, redisRun, hstep, Option.isNone_some]
        have hst' : (st (LimitBase.key base u) = none ∧ prev = []) ∨
            (∃ ex, st (LimitBase.key base u) = some (prev, ex) ∧
              ∀ t' ∈ rest, t' ≤ ex) := by
          rcases hst with ⟨hk, hp⟩ | ⟨ex, hk, hex⟩
          · exact Or.inl ⟨hk, hp⟩
          · exact Or.inr ⟨ex, hk,
              fun t' ht' => hex t' (List.mem_cons_of_mem t ht')⟩
        rw [ih prev st hst'
          (fun t' ht' e he => hwin t' (List.mem_cons_of_mem t ht') e he)
          hpw2]
        simp [hN0, List.replicate_succ]
      · have hchk : RedisLimiter.check_rates (rlPS N).rates
            (zEffective st (LimitBase.key base u) t) t = .ok () := by
          unfold RedisLimiter.check_rates
          rw [rlPS_rates, heff]
          simp [List.find?, hcount, hcmp]
        have htnotmem : t ∉ prev := by
          intro hmem
          have := (hwin t (List.mem_cons_self t rest) t hmem).2
          exact absurd this (lt_irrefl t)
        have hupd : RedisLimiter.update_rates (rlPS N) st
            (LimitBase.key base u) t =
            some (updRed st (LimitBase.key base u)
              (some (prev ++ [t], t + 1))) := by
          have hfil2 : prev.filter
              (fun e => !decide ((0 : ℚ) ≤ e) || decide (t - 1 < e)) =
              prev := by
            refine List.filter_eq_self.mpr ?_
            intro e he
            have := (hwin t (List.mem_cons_self t rest) e he).1
            simp only [Bool.or_eq_true, decide_eq_true_eq]
            right
            linarith
          simp only [RedisLimiter.update_rates, rlPS_max, heff]
          simp [htnotmem]
          rw [hfil2]
        have hstep : RedisLimiter.try_ratelimit (rlPS N) base st u t noFail =
            (none, updRed st (LimitBase.key base u)
              (some (prev ++ [t], t + 1))) := by
          simp [RedisLimiter.try_ratelimit, noFail, hchk, redis_try_run,
            hupd]
        have hwin' : ∀ t' ∈ rest, ∀ e ∈ prev ++ [t], t' - 1 < e ∧ e < t' := by
          intro t' ht' e he
          rcases List.mem_append.mp he with h | h
          · obtain ⟨h1, h2⟩ := hwin t' (List.mem_cons_of_mem t ht') e h
            exact ⟨h1, h2⟩
          · have heq : e = t := by simpa using h
            subst heq
            obtain ⟨ha, hb⟩ := hpw1 t' ht'
            constructor <;> linarith
        have hst' : (updRed st (LimitBase.key base u)
              (some (prev ++ [t], t + 1)) (LimitBase.key base u) = none ∧
              prev ++ [t] = []) ∨
            (∃ ex, updRed st (LimitBase.key base u)
              (some (prev ++ [t], t + 1)) (LimitBase.key base u) =
                some (prev ++ [t], ex) ∧ ∀ t' ∈ rest, t' ≤ ex) := by
          refine Or.inr ⟨t + 1, by simp [updRed], ?_⟩
          intro t' ht'
          obtain ⟨ha, hb⟩ := hpw1 t' ht'
          linarith
        simp only [List.map_cons, redisRun, hstep, Option.isNone_none]
        rw [ih (prev ++ [t]) _ hst' hwin' hpw2]
        have hlen : (prev ++ [t]).length = prev.length + 1 := by simp
        rw [hlen]
        have h1 : min (rest.length + 1) (N - prev.length) =
            min rest.length (N - (prev.length + 1)) + 1 := by omega
        have h2 : rest.length + 1 - (N - prev.length) =
            rest.length - (N - (prev.length + 1)) := by omega
        simp only [List.length_cons, h1, h2, List.replicate_succ,
          List.cons_append]

/-- C1 counterexample: with `per_second=1`, one event recorded at time 0
and a second call at time 1, the claim's window `(now-duration, now] =
(0, 1]` contains no event (`countWindow [0] (1-1) = 0 < 1`), so the claim
says the call is allowed on every backend; the shared-store backend's
`ZCOUNT` counts the inclusive range `[0, 1]` and rejects, while the
in-memory backend allows — the stated boundary semantics is wrong for the
shared-store backend. -/
theorem C1_counterexample :
    (redisRun { per_second := some 1 } "test" redisEmpty
      [("u", 0), ("u", 1)]).1 = [true, false] ∧
    (memRun { per_second := some 1 } "test" memEmpty
      [("u", 0), ("u", 1)]).1 = [true, true] ∧
    countWindow [0] (1 - 1) = 0 := by
  refine ⟨?_, ?_, ?_⟩ <;> with_unfolding_all decide

/-- **C1 (amended).** `try_ratelimit` raises `RateLimitExceeded` iff some
configured `(limit, duration)` pair has window count ≥ limit, where the
in-memory backend counts events with timestamp strictly greater than
`now - duration` (no upper bound in the code; over histories recorded in
the past this is the window `(now-duration, now]`), while the shared-store
backend counts the inclusive range `[now-duration, now]` of the visible
(unexpired) events; with a single `per_second=N` window and N+1 strictly
increasing calls within one second, the first N succeed and the (N+1)-th
is rejected on both backends. -/
theorem C1_window_semantics :
    (∀ (r : RateLimit) (base user : String) (st : MemSt) (now : ℚ),
      ((MemLimiter.try_ratelimit r base st user now).1 =
          some .rateLimitExceeded ↔
        ∃ ld ∈ r.rates,
          ld.1 ≤ (countWindow ((st (LimitBase.key base user)).getD [])
            (now - ld.2) : Int))) ∧
    (∀ (r : RateLimit) (base user : String) (st : RedSt) (now : ℚ),
      ((RedisLimiter.try_ratelimit r base st user now noFail).1 =
          some .rateLimitExceeded ↔
        ∃ ld ∈ r.rates,
          ld.1 ≤ (zcount (zEffective st (LimitBase.key base user) now)
            (now - ld.2) now : Int))) ∧
    (∀ (N : ℕ) (base user : String) (ts : List ℚ),
      List.Pairwise (fun a b : ℚ => a < b ∧ b - a < 1) ts →
      ts.length = N + 1 →
      (memRun (rlPS N) base memEmpty (ts.map fun t => (user, t))).1 =
        List.replicate N true ++ [false] ∧
      (redisRun (rlPS N) base redisEmpty (ts.map fun t => (user, t))).1 =
        List.replicate N true ++ [false]) := by
  refine ⟨?_, ?_, ?_⟩
  · intro r base user st now
    have hch : (MemLimiter.try_ratelimit r base st user now).1 =
        some .rateLimitExceeded ↔
        (firstViolation r.rates ((st (LimitBase.key base user)).getD [])
          now).isSome = true := by
      simp only [MemLimiter.try_ratelimit]
      cases hv : firstViolation r.rates
          ((st (LimitBase.key base user)).getD []) now <;> simp [hv]
    rw [hch]
    unfold firstViolation
    rw [List.find?_isSome]
    simp
  · intro r base user st now
    have hch : (RedisLimiter.try_ratelimit r base st user now noFail).1 =
        some .rateLimitExceeded ↔
        (List.find? (fun ld => decide (ld.1 ≤
          (zcount (zEffective st (LimitBase.key base user) now)
            (now - ld.2) now : Int))) r.rates).isSome = true := by
      simp only [RedisLimiter.try_ratelimit, noFail,
        RedisLimiter.check_rates]
      cases hf : List.find? (fun ld => decide (ld.1 ≤
          (zcount (zEffective st (LimitBase.key base user) now)
            (now - ld.2) now : Int))) r.rates with
      | some ld => simp [redis_try_run, isRedisErr]
      | none =>
          simp only [redis_try_run]
          cases RedisLimiter.update_rates r st (LimitBase.key base user)
              now <;> simp
    rw [hch]
    rw [List.find?_isSome]
    simp
  · intro N base user ts hpw hlen
    constructor
    · have h := mem_ps_run N base user ts [] memEmpty rfl
        (fun t _ e he => absurd he (List.not_mem_nil e)) hpw
      rw [h, hlen]
      have e1 : min (N + 1) (N - List.length ([] : List ℚ)) = N := by
        simp
      have e2 : N + 1 - (N - List.length ([] : List ℚ)) = 1 := by
        simp
      rw [e1, e2, List.replicate_one]
    · have h := redis_ps_run N base user ts [] redisEmpty
        (Or.inl ⟨rfl, rfl⟩)
        (fun t _ e he => absurd he (List.not_mem_nil e)) hpw
      rw [h, hlen]
      have e1 : min (N + 1) (N - List.length ([] : List ℚ)) = N := by
        simp
      have e2 : N + 1 - (N - List.length ([] : List ℚ)) = 1 := by
        simp
      rw [e1, e2, List.replicate_one]

/-- Witness for C1 (amended): `per_second=1`, calls at 0 and 1/2 — the
first succeeds and the second is rejected on both backends. -/
theorem C1_window_semantics_witness :
    (memRun (rlPS 1) "test" memEmpty [("u", 0), ("u", 1/2)]).1 =
      List.replicate 1 true ++ [false] ∧
    (redisRun (rlPS 1) "test" redisEmpty [("u", 0), ("u", 1/2)]).1 =
      List.replicate 1 true ++ [false] := by
  have h := (C1_window_semantics).2.2 1 "test" "u" [0, 1/2]
    (by constructor
        · intro b hb
          have : b = 1/2 := by simpa using hb
          subst this
          constructor <;> norm_num
        · simp)
    (by simp)
  exact ⟨by simpa using h.1, by simpa using h.2⟩

/-! ### Backend equivalence (C2)

The simulation invariant: the store's key state is the memory backend's
event list for that key, trimmed by the last purge
(`ZREMRANGEBYSCORE 0 (last - max_duration)`) and carrying the expiry
instant `last + max_duration` of the last successful call `last`. -/

theorem countP_ext {α : Type} {p q : α → Bool} :
    ∀ {l : List α}, (∀ a ∈ l, p a = q a) → l.countP p = l.countP q := by
  intro l
  induction l with
  | nil => intro _; rfl
  | cons a tl ih =>
      intro h
      simp only [List.countP_cons]
      rw [h a (List.mem_cons_self a tl),
        ih (fun x hx => h x (List.mem_cons_of_mem a hx))]

theorem find?_ext {α : Type} {p q : α → Bool} :
    ∀ {l : List α}, (∀ a ∈ l, p a = q a) → l.find? p = l.find? q := by
  intro l
  induction l with
  | nil => intro _; rfl
  | cons a tl ih =>
      intro h
      simp only [List.find?]
      rw [h a (List.mem_cons_self a tl)]
      cases q a
      · exact ih (fun x hx => h x (List.mem_cons_of_mem a hx))
      · rfl

theorem run_equiv_aux (r : RateLimit) (base : String) (md : Int)
    (hmd : r.max_duration? = some md) :
    ∀ (calls : List (String × ℚ)) (m : MemSt) (s : RedSt),
      (∀ k, (∀ e ∈ (m k).getD [], 0 ≤ e ∧ ∀ c ∈ calls, e < c.2 ∧
          ∀ ld ∈ r.rates, c.2 - e ≠ (ld.2 : ℚ)) ∧
        InvK md ((m k).getD []) (s k)) →
      List.Pairwise (fun a b : String × ℚ => a.2 < b.2 ∧
        ∀ ld ∈ r.rates, b.2 - a.2 ≠ (ld.2 : ℚ)) calls →
      (∀ c ∈ calls, 0 ≤ c.2) →
      (memRun r base m calls).1 = (redisRun r base s calls).1 := by
  intro calls
  induction calls with
  | nil => intro m s _ _ _; rfl
  | cons c rest ih =>
      obtain ⟨u, t⟩ := c
      intro m s hInv hpw hnn
      obtain ⟨hpw1, hpw2⟩ := List.pairwise_cons.mp hpw
      obtain ⟨hge, hik⟩ := hInv (LimitBase.key base u)
      have hcurr : ∀ e ∈ (m (LimitBase.key base u)).getD [],
          e < t ∧ ∀ ld ∈ r.rates, t - e ≠ (ld.2 : ℚ) :=
        fun e he => (hge e he).2 (u, t) (List.mem_cons_self _ _)
      have hnn0 : (0 : ℚ) ≤ t := hnn (u, t) (List.mem_cons_self _ _)
      have hdle : ∀ ld ∈ r.rates, (ld.2 : ℚ) ≤ (md : ℚ) := by
        intro ld hld
        exact_mod_cast rates_duration_le_max hld hmd
      have hmdpos : (0 : ℚ) < (md : ℚ) := by
        exact_mod_cast max_duration_pos hmd
      have hcnt : ∀ ld ∈ r.rates,
          countWindow ((m (LimitBase.key base u)).getD []) (t - ld.2) =
          zcount (zEffective s (LimitBase.key base u) t) (t - ld.2) t := by
        intro ld hld
        cases hs : s (LimitBase.key base u) with
        | none =>
            rw [hs] at hik
            have hme : (m (LimitBase.key base u)).getD [] = [] := by
              simpa [InvK] using hik
            simp [countWindow, zcount, zEffective, hs, hme]
        | some esx =>
            obtain ⟨es, ex⟩ := esx
            rw [hs] at hik
            simp only [InvK] at hik
            obtain ⟨last, hlmem, hlmax, hes, hex⟩ := hik
            have hlt : last < t := (hcurr last hlmem).1
            by_cases hexp : ex < t
            · have hz : zEffective s (LimitBase.key base u) t = [] := by
                simp [zEffective, hs, hexp]
              have hlast_small : last < t - (md : ℚ) := by
                rw [hex] at hexp
                linarith
              have hc0 : countWindow ((m (LimitBase.key base u)).getD [])
                  (t - ld.2) = 0 := by
                unfold countWindow
                rw [List.countP_eq_zero]
                intro e he
                have h1 : e ≤ last := hlmax e he
                have h2 := hdle ld hld
                simp only [decide_eq_true_eq, not_lt]
                linarith
              rw [hc0, hz]
              simp [zcount]
            · have hz : zEffective s (LimitBase.key base u) t = es := by
                simp [zEffective, hs, hexp]
              rw [hz, hes]
              unfold zcount countWindow
              rw [List.countP_filter]
              refine countP_ext ?_
              intro e he
              obtain ⟨helt, hne⟩ := hcurr e he
              have hne' : e ≠ t - (ld.2 : ℚ) := by
                intro hcon
                apply hne ld hld
                rw [hcon]
                ring
              by_cases hca : t - (ld.2 : ℚ) < e
              · have h1 : t - (ld.2 : ℚ) ≤ e := le_of_lt hca
                have h2 : e ≤ t := le_of_lt helt
                have h3 : last - (md : ℚ) < e := by
                  have := hdle ld hld
                  linarith
                simp [hca, h1, h2, h3]
              · have h1 : ¬(t - (ld.2 : ℚ) ≤ e) := by
                  intro hle
                  rcases eq_or_lt_of_le hle with heq | hlt2
                  · exact hne' heq.symm
                  · exact hca hlt2
                simp [hca, h1]
      have hfv : firstViolation r.rates ((m (LimitBase.key base u)).getD [])
          t = List.find? (fun ld => decide (ld.1 ≤
            (zcount (zEffective s (LimitBase.key base u) t)
              (t - ld.2) t : Int))) r.rates := by
        unfold firstViolation
        refine find?_ext ?_
        intro ld hld
        rw [hcnt ld hld]
      cases hv : firstViolation r.rates
          ((m (LimitBase.key base u)).getD []) t with
      | some ld =>
          have hchk : RedisLimiter.check_rates r.rates
              (zEffective s (LimitBase.key base u) t) t =
              .error .rateLimitExceeded := by
            unfold RedisLimiter.check_rates
            rw [← hfv, hv]
          have hmstep : MemLimiter.try_ratelimit r base m u t =
              (some .rateLimitExceeded, updMem m (LimitBase.key base u)
                (some ((m (LimitBase.key base u)).getD []))) := by
            simp only [MemLimiter.try_ratelimit]
            rw [hv]
          have hrstep : RedisLimiter.try_ratelimit r base s u t noFail =
              (some .rateLimitExceeded, s) := by
            simp [RedisLimiter.try_ratelimit, noFail, hchk, redis_try_run,
              isRedisErr]
          simp only [memRun, redisRun, hmstep, hrstep]
          congr 1
          apply ih
          · intro k'
            by_cases hk' : k' = LimitBase.key base u
            · subst hk'
              have hmk : (updMem m (LimitBase.key base u)
                  (some ((m (LimitBase.key base u)).getD []))
                  (LimitBase.key base u)).getD [] =
                  (m (LimitBase.key base u)).getD [] := by
                simp [updMem]
              rw [hmk]
              exact ⟨fun e he => ⟨(hge e he).1,
                fun c hc => (hge e he).2 c (List.mem_cons_of_mem _ hc)⟩,
                hik⟩
            · have hmk : (updMem m (LimitBase.key base u)
                  (some ((m (LimitBase.key base u)).getD [])) k').getD [] =
                  (m k').getD [] := by
                simp [updMem, hk']
              rw [hmk]
              obtain ⟨hge', hik'⟩ := hInv k'
              exact ⟨fun e he => ⟨(hge' e he).1,
                fun c hc => (hge' e he).2 c (List.mem_cons_of_mem _ hc)⟩,
                hik'⟩
          · exact hpw2
          · exact fun c hc => hnn c (List.mem_cons_of_mem _ hc)
      | none =>
          have hchk : RedisLimiter.check_rates r.rates
              (zEffective s (LimitBase.key base u) t) t = .ok () := by
            unfold RedisLimiter.check_rates
            rw [← hfv, hv]
          have hmstep : MemLimiter.try_ratelimit r base m u t =
              (none, updMem (updMem m (LimitBase.key base u)
                (some ((m (LimitBase.key base u)).getD [])))
                (LimitBase.key base u)
                (some ((m (LimitBase.key base u)).getD [] ++ [t]))) := by
            simp only [MemLimiter.try_ratelimit]
            rw [hv]
          have hupdeq : RedisLimiter.update_rates r s
              (LimitBase.key base u) t =
              some (updRed s (LimitBase.key base u)
                (some (((m (LimitBase.key base u)).getD [] ++ [t]).filter
                  (fun e => decide (t - (md : ℚ) < e)), t + md))) := by
            have hp1 : ¬(t ≤ t - (md : ℚ)) := by linarith
            have hp2 : t - (md : ℚ) < t := by linarith
            cases hs : s (LimitBase.key base u) with
            | none =>
                rw [hs] at hik
                have hme : (m (LimitBase.key base u)).getD [] = [] := by
                  simpa [InvK] using hik
                simp only [RedisLimiter.update_rates, hmd, zEffective, hs,
                  hme]
                simp [hp1, hp2]
            | some esx =>
                obtain ⟨es, ex⟩ := esx
                rw [hs] at hik
                simp only [InvK] at hik
                obtain ⟨last, hlmem, hlmax, hes, hex⟩ := hik
                have hlt : last < t := (hcurr last hlmem).1
                by_cases hexp : ex < t
                · have hz : zEffective s (LimitBase.key base u) t = [] := by
                    simp [zEffective, hs, hexp]
                  have hlast_small : last < t - (md : ℚ) := by
                    rw [hex] at hexp
                    linarith
                  have hmefil : ((m (LimitBase.key base u)).getD []).filter
                      (fun e => decide (t - (md : ℚ) < e)) = [] := by
                    rw [List.filter_eq_nil_iff]
                    intro e he
                    have h1 : e ≤ last := hlmax e he
                    simp only [decide_eq_true_eq, not_lt]
                    linarith
                  simp only [RedisLimiter.update_rates, hmd, hz]
                  simp [hp1, hp2, hmefil]
                · have hz : zEffective s (LimitBase.key base u) t = es := by
                    simp [zEffective, hs, hexp]
                  have htnotmem : t ∉ es := by
                    intro hmem
                    rw [hes] at hmem
                    have := (hcurr t (List.mem_of_mem_filter hmem)).1
                    exact absurd this (lt_irrefl t)
                  have hesfil : es.filter
                      (fun e => !decide ((0:ℚ) ≤ e) ||
                        decide (t - (md:ℚ) < e)) =
                      ((m (LimitBase.key base u)).getD []).filter
                        (fun e => decide (t - (md : ℚ) < e)) := by
                    rw [hes, List.filter_filter]
                    refine List.filter_congr ?_
                    intro e he
                    have h0e : (0:ℚ) ≤ e := (hge e he).1
                    by_cases hca : t - (md : ℚ) < e
                    · have h3 : last - (md : ℚ) < e := by linarith
                      simp [hca, h3, h0e]
                    · simp [hca, h0e]
                  simp only [RedisLimiter.update_rates, hmd, hz]
                  simp [htnotmem, hp1, hp2, hesfil]
          have hrstep : RedisLimiter.try_ratelimit r base s u t noFail =
              (none, updRed s (LimitBase.key base u)
                (some (((m (LimitBase.key base u)).getD [] ++ [t]).filter
                  (fun e => decide (t - (md : ℚ) < e)), t + md))) := by
            simp [RedisLimiter.try_ratelimit, noFail, hchk, redis_try_run,
              hupdeq]
          simp only [memRun, redisRun, hmstep, hrstep]
          congr 1
          apply ih
          · intro k'
            by_cases hk' : k' = LimitBase.key base u
            · subst hk'
              have hmk : (updMem (updMem m (LimitBase.key base u)
                  (some ((m (LimitBase.key base u)).getD [])))
                  (LimitBase.key base u)
                  (some ((m (LimitBase.key base u)).getD [] ++ [t]))
                  (LimitBase.key base u)).getD [] =
                  (m (LimitBase.key base u)).getD [] ++ [t] := by
                simp [updMem]
              rw [hmk]
              constructor
              · intro e he
                rcases List.mem_append.mp he with h | h
                · exact ⟨(hge e h).1,
                    fun c hc => (hge e h).2 c (List.mem_cons_of_mem _ hc)⟩
                · have heq : e = t := by simpa using h
                  subst heq
                  exact ⟨hnn0, fun c hc => (hpw1 c hc)⟩
              · have hsk : updRed s (LimitBase.key base u)
                    (some (((m (LimitBase.key base u)).getD [] ++
                      [t]).filter
                      (fun e => decide (t - (md : ℚ) < e)), t + md))
                    (LimitBase.key base u) =
                    some (((m (LimitBase.key base u)).getD [] ++ [t]).filter
                      (fun e => decide (t - (md : ℚ) < e)), t + md) := by
                  simp [updRed]
                rw [hsk]
                simp only [InvK]
                refine ⟨t, List.mem_append_right _ (List.mem_singleton.mpr
                  rfl), ?_, rfl, rfl⟩
                intro e he
                rcases List.mem_append.mp he with h | h
                · exact le_of_lt (hcurr e h).1
                · have heq : e = t := by simpa using h
                  rw [heq]
            · have hmk : (updMem (updMem m (LimitBase.key base u)
                  (some ((m (LimitBase.key base u)).getD [])))
                  (LimitBase.key base u)
                  (some ((m (LimitBase.key base u)).getD [] ++ [t]))
                  k').getD [] = (m k').getD [] := by
                simp [updMem, hk']
              have hsk : updRed s (LimitBase.key base u)
                  (some (((m (LimitBase.key base u)).getD [] ++ [t]).filter
                    (fun e => decide (t - (md : ℚ) < e)), t + md)) k' =
                  s k' := by
                simp [updRed, hk']
              rw [hmk, hsk]
              obtain ⟨hge', hik'⟩ := hInv k'
              exact ⟨fun e he => ⟨(hge' e he).1,
                fun c hc => (hge' e he).2 c (List.mem_cons_of_mem _ hc)⟩,
                hik'⟩
          · exact hpw2
          · exact fun c hc => hnn c (List.mem_cons_of_mem _ hc)

/-- C2 counterexample: same config (`per_second=1`), same call sequence
(user "u" at times 0 and 1), but the backends disagree on the second call —
the event at time 0 sits exactly on the window boundary `now - duration =
1 - 1`, which the in-memory backend excludes (strict `>`) and the
shared-store backend includes (inclusive `ZCOUNT`). -/
theorem C2_counterexample :
    (memRun { per_second := some 1 } "test" memEmpty
      [("u", 0), ("u", 1)]).1 = [true, true] ∧
    (redisRun { per_second := some 1 } "test" redisEmpty
      [("u", 0), ("u", 1)]).1 = [true, false] ∧
    (memRun { per_second := some 1 } "test" memEmpty
      [("u", 0), ("u", 1)]).1 ≠
      (redisRun { per_second := some 1 } "test" redisEmpty
        [("u", 0), ("u", 1)]).1 := by
  refine ⟨?_, ?_, ?_⟩ <;> with_unfolding_all decide

/-- **C2 (amended).** For every `RateLimit` config and every call sequence
with nonnegative, strictly increasing timestamps in which no two call
timestamps differ by exactly one of the configured window durations, the
in-memory and shared-store backends produce identical accept/reject
decisions at every step; at exact window boundaries (timestamp difference
equal to a configured duration) the backends can differ (exclusive `>`
versus inclusive `ZCOUNT`), and at identical timestamps the store's
stringified-timestamp member collides while the in-memory list records a
duplicate. -/
theorem C2_backend_equiv (r : RateLimit) (base : String)
    (calls : List (String × ℚ))
    (hpw : List.Pairwise (fun a b : String × ℚ => a.2 < b.2 ∧
      ∀ ld ∈ r.rates, b.2 - a.2 ≠ (ld.2 : ℚ)) calls)
    (hnn : ∀ c ∈ calls, 0 ≤ c.2) :
    (memRun r base memEmpty calls).1 = (redisRun r base redisEmpty calls).1
    := by
  cases hmd : r.max_duration? with
  | none =>
      have hr : r.rates = [] := max_duration_none_iff.mp hmd
      rw [memRun_rates_nil hr base calls memEmpty,
        redisRun_rates_nil hr base calls redisEmpty]
  | some md =>
      apply run_equiv_aux r base md hmd calls memEmpty redisEmpty ?_ hpw hnn
      intro k
      exact ⟨fun e he => absurd he (List.not_mem_nil e), by simp [InvK,
        memEmpty, redisEmpty]⟩

/-- Witness for C2 (amended): `per_second=1`, calls at 0 and 1/2 satisfy
the hypotheses (increasing, nonnegative, difference 1/2 ≠ 1) and both
backends produce `[true, false]`. -/
theorem C2_backend_equiv_witness :
    (memRun { per_second := some 1 } "test" memEmpty
      [("u", 0), ("u", 1/2)]).1 =
    (redisRun { per_second := some 1 } "test" redisEmpty
      [("u", 0), ("u", 1/2)]).1 := by
  exact C2_backend_equiv { per_second := some 1 } "test"
    [("u", 0), ("u", 1/2)] (by with_unfolding_all decide)
    (by with_unfolding_all decide)
